import Mathlib

/-!
Verification development for the FlowKit gating engine.

The definitions below are a shallow embedding of the repository's source:

* `src/flowkit/models/gate.py` — `Dimension`, `RectangleGate.apply`,
  `GatingStrategy.__init__` (gate registration) and `GatingStrategy.gate_sample`;
* `src/flowkit/_models/session.py` — `_gate_sample`, `_gate_samples`,
  `Session.assign_sample`, `Session.add_gate`;
* `src/flowkit/models/gates/gml_gates.py` — the divider-to-range derivation
  loop of `GMLQuadrantGate.__init__`.

Event values are floats in the source; they are embedded as rationals, since
every operation performed on them here is an order comparison.  Python
exceptions are embedded as an `Except PyErr` result.
-/

namespace FlowKit

/-- Embedding of the Python exceptions raised by the modelled code paths. -/
inductive PyErr : Type where
  | valueError (msg : String)
  | attributeError (msg : String)
  | keyError (msg : String)
  | indexError (msg : String)
deriving DecidableEq, Repr

/-- Embedding of `Dimension` (gate.py): a channel label plus optional
`min` / `max` bounds. -/
structure Dimension where
  label : String
  min : Option ℚ
  max : Option ℚ
deriving DecidableEq, Repr

/-- Embedding of `RectangleGate` (gate.py): id, optional parent id, and the
dimension list. -/
structure RectangleGate where
  id : String
  parent : Option String
  dimensions : List Dimension
deriving DecidableEq, Repr

/-- A 2-D numpy event array: the rows plus the column count `shape[1]`. -/
structure EventsMatrix where
  rows : List (List ℚ)
  ncols : Nat
deriving DecidableEq, Repr

/-- Well-formedness of the numpy array shape: every row has `ncols` entries. -/
def EventsMatrix.WF (m : EventsMatrix) : Prop :=
  ∀ r ∈ m.rows, r.length = m.ncols

instance (m : EventsMatrix) : Decidable m.WF := by
  unfold EventsMatrix.WF; infer_instance

/-- Embedding of Python's `list.index` returning the first matching position,
`none` standing for the `ValueError` raised when the item is absent. -/
def pyIndex : List String → String → Option Nat
  | [], _ => none
  | x :: xs, l => if x = l then some 0 else (pyIndex xs l).map (· + 1)

/-- Embedding of the per-dimension loop of `RectangleGate.apply`
(gate.py lines 129-137): for each dimension, first raise if both bounds are
missing, then resolve the label to a column index (raising if absent), and
collect `(index, min, max)` in order. -/
def collectDims (gateId : String) (labels : List String) :
    List Dimension → Except PyErr (List (Nat × Option ℚ × Option ℚ))
  | [] => .ok []
  | d :: ds =>
    if d.min = none ∧ d.max = none then
      .error (.valueError ("Gate " ++ gateId ++ " does not include a min or max value"))
    else
      match pyIndex labels d.label with
      | none => .error (.valueError (d.label ++ " is not in list"))
      | some i => (collectDims gateId labels ds).map (fun rest => (i, d.min, d.max) :: rest)

/-- Pointwise conjunction of two boolean masks (`np.bitwise_and`). -/
def andMask (a b : List Bool) : List Bool := List.zipWith (· && ·) a b

/-- Column comparison `events[:, i] >= a` as a boolean mask. -/
def geColumn (rows : List (List ℚ)) (i : Nat) (a : ℚ) : List Bool :=
  rows.map (fun r => decide (a ≤ r.getD i 0))

/-- Column comparison `events[:, i] < b` as a boolean mask. -/
def ltColumn (rows : List (List ℚ)) (i : Nat) (b : ℚ) : List Bool :=
  rows.map (fun r => decide (r.getD i 0 < b))

/-- One iteration of the bound-mask loop of `RectangleGate.apply`
(gate.py lines 141-145): conjoin the `>= min` mask when min is present,
then the `< max` mask when max is present. -/
def boundStep (rows : List (List ℚ)) (res : List Bool)
    (d : Nat × Option ℚ × Option ℚ) : List Bool :=
  let res1 := match d.2.1 with
    | none => res
    | some a => andMask res (geColumn rows d.1 a)
  match d.2.2 with
  | none => res1
  | some b => andMask res1 (ltColumn rows d.1 b)

/-- Embedding of `RectangleGate.apply` (gate.py lines 118-147): shape check,
per-dimension collection, then the mask starts as all ones and is
`bitwise_and`-ed with each present bound's comparison mask. -/
def RectangleGate.apply (g : RectangleGate) (events : EventsMatrix)
    (pnn_labels : List String) : Except PyErr (List Bool) :=
  if events.ncols ≠ pnn_labels.length then
    .error (.valueError "Number of FCS dimensions does not match label count")
  else
    (collectDims g.id pnn_labels g.dimensions).map
      (fun dims => dims.foldl (boundStep events.rows)
        (List.replicate events.rows.length true))

/-- The per-event test a resolved dimension contributes: within the lower
bound when present, and strictly below the upper bound when present. -/
def rowTest (row : List ℚ) (d : Nat × Option ℚ × Option ℚ) : Bool :=
  (match d.2.1 with
   | none => true
   | some a => decide (a ≤ row.getD d.1 0)) &&
  (match d.2.2 with
   | none => true
   | some b => decide (row.getD d.1 0 < b))

lemma exceptMap_ok {ε α β : Type} (f : α → β) (x : α) :
    (Except.ok x : Except ε α).map f = .ok (f x) := rfl

lemma all_of_map {α β : Type} (l : List α) (f : α → β) (p : β → Bool) :
    (l.map f).all p = l.all (fun x => p (f x)) := by
  induction l with
  | nil => rfl
  | cons a as ih => simp [List.all_cons, ih]

lemma zipWith_ext {α β γ : Type} (f f' : α → β → γ) (l : List α) (l' : List β)
    (h : ∀ a b, f a b = f' a b) : List.zipWith f l l' = List.zipWith f' l l' := by
  induction l generalizing l' with
  | nil => simp
  | cons a as ih =>
    cases l' with
    | nil => simp
    | cons b bs => simp [List.zipWith, h, ih]

lemma zipWith_left_id {α : Type} (res : List Bool) (rows : List α)
    (h : res.length = rows.length) :
    List.zipWith (fun b _ => b) res rows = res := by
  induction res generalizing rows with
  | nil => simp
  | cons b bs ih =>
    cases rows with
    | nil => simp at h
    | cons r rs =>
      simp only [List.zipWith]
      simp only [List.length_cons, Nat.succ.injEq] at h
      rw [ih rs h]

lemma zipWith_zipWith_same {α β γ δ : Type} (f : γ → β → δ) (g : α → β → γ)
    (l : List α) (l' : List β) :
    List.zipWith f (List.zipWith g l l') l' =
      List.zipWith (fun a b => f (g a b) b) l l' := by
  induction l generalizing l' with
  | nil => simp
  | cons a as ih =>
    cases l' with
    | nil => simp
    | cons b bs => simp [List.zipWith, ih]

lemma zipWith_replicate_true {α : Type} (f : α → Bool) (l : List α) :
    List.zipWith (fun b r => b && f r) (List.replicate l.length true) l =
      l.map f := by
  induction l with
  | nil => simp
  | cons a as ih => simp [List.replicate, List.zipWith, ih]

lemma boundStep_length (rows : List (List ℚ)) (res : List Bool)
    (d : Nat × Option ℚ × Option ℚ) (h : res.length = rows.length) :
    (boundStep rows res d).length = rows.length := by
  obtain ⟨i, mn, mx⟩ := d
  cases mn <;> cases mx <;>
    simp [boundStep, andMask, geColumn, ltColumn, h]

lemma boundStep_eq (rows : List (List ℚ)) (res : List Bool)
    (d : Nat × Option ℚ × Option ℚ) (h : res.length = rows.length) :
    boundStep rows res d =
      List.zipWith (fun b r => b && rowTest r d) res rows := by
  obtain ⟨i, mn, mx⟩ := d
  cases mn with
  | none =>
    cases mx with
    | none =>
      simp only [boundStep, rowTest]
      rw [zipWith_ext _ (fun (b : Bool) (_ : List ℚ) => b) res rows
        (fun a b => by simp), zipWith_left_id res rows h]
    | some b =>
      simp only [boundStep, rowTest, andMask, ltColumn]
      rw [List.zipWith_map_right]
      exact zipWith_ext _ _ _ _ (fun x y => by simp)
  | some a =>
    cases mx with
    | none =>
      simp only [boundStep, rowTest, andMask, geColumn]
      rw [List.zipWith_map_right]
      exact zipWith_ext _ _ _ _ (fun x y => by simp)
    | some b =>
      simp only [boundStep, rowTest, andMask, geColumn, ltColumn]
      rw [List.zipWith_map_right, List.zipWith_map_right, zipWith_zipWith_same]
      exact zipWith_ext _ _ _ _ (fun x y => by simp [Bool.and_assoc])

lemma foldl_boundStep (rows : List (List ℚ)) (dims : List (Nat × Option ℚ × Option ℚ))
    (res : List Bool) (h : res.length = rows.length) :
    dims.foldl (boundStep rows) res =
      List.zipWith (fun b r => b && dims.all (fun d => rowTest r d)) res rows := by
  induction dims generalizing res with
  | nil =>
    simp only [List.foldl_nil, List.all_nil, Bool.and_true]
    exact (zipWith_left_id res rows h).symm
  | cons d ds ih =>
    simp only [List.foldl_cons]
    rw [ih (boundStep rows res d) (boundStep_length rows res d h),
      boundStep_eq rows res d h, zipWith_zipWith_same]
    refine zipWith_ext _ _ _ _ (fun x y => ?_)
    simp [Bool.and_assoc]

lemma collectDims_ok (gateId : String) (labels : List String)
    (ds : List Dimension)
    (hres : ∀ d ∈ ds, (pyIndex labels d.label).isSome = true)
    (hbound : ∀ d ∈ ds, d.min ≠ none ∨ d.max ≠ none) :
    collectDims gateId labels ds =
      .ok (ds.map (fun d => ((pyIndex labels d.label).getD 0, d.min, d.max))) := by
  induction ds with
  | nil => rfl
  | cons d ds ih =>
    have hb : ¬(d.min = none ∧ d.max = none) := by
      rcases hbound d (by simp) with h | h <;> tauto
    have hr : (pyIndex labels d.label).isSome = true := hres d (by simp)
    obtain ⟨i, hi⟩ := Option.isSome_iff_exists.mp hr
    simp only [collectDims, if_neg hb, hi]
    rw [ih (fun x hx => hres x (by simp [hx])) (fun x hx => hbound x (by simp [hx]))]
    rw [exceptMap_ok]
    simp [hi]

/-- Normal form of `RectangleGate.apply` when the shape matches, every label
resolves, and every dimension carries at least one bound: the mask is the
per-row conjunction of all resolved dimension tests. -/
lemma rectangle_apply_eq (g : RectangleGate) (events : EventsMatrix)
    (pnn_labels : List String)
    (hcols : events.ncols = pnn_labels.length)
    (hres : ∀ d ∈ g.dimensions, (pyIndex pnn_labels d.label).isSome = true)
    (hbound : ∀ d ∈ g.dimensions, d.min ≠ none ∨ d.max ≠ none) :
    g.apply events pnn_labels =
      .ok (events.rows.map (fun r => g.dimensions.all
        (fun d => rowTest r ((pyIndex pnn_labels d.label).getD 0, d.min, d.max)))) := by
  rw [RectangleGate.apply, if_neg (by simp [hcols]),
    collectDims_ok g.id pnn_labels g.dimensions hres hbound, exceptMap_ok]
  congr 1
  rw [foldl_boundStep events.rows _ _ (by simp),
    zipWith_replicate_true]
  congr 1
  funext r
  rw [all_of_map]

lemma rowTest_true_iff (row : List ℚ) (i : Nat) (mn mx : Option ℚ) :
    rowTest row (i, mn, mx) = true ↔
      (∀ a, mn = some a → a ≤ row.getD i 0) ∧
      (∀ b, mx = some b → row.getD i 0 < b) := by
  cases mn <;> cases mx <;> simp [rowTest]

lemma map_const_true {α : Type} (l : List α) :
    l.map (fun _ => true) = List.replicate l.length true := by
  induction l with
  | nil => rfl
  | cons a as ih => simp [List.replicate, ih]

/-- Example channel labels used for concrete evaluations. -/
def exLabels : List String := ["FSC-A", "SSC-A"]

/-- Example rectangle gate: first channel in `[1, 5)`, second channel `>= 0`. -/
def exGate : RectangleGate :=
  ⟨"rect1", none, [⟨"FSC-A", some 1, some 5⟩, ⟨"SSC-A", some 0, none⟩]⟩

/-- Example event matrix with three events over two channels. -/
def exEvents : EventsMatrix := ⟨[[2, 3], [7, 1], [1, 0]], 2⟩

/-- C1: for an events matrix whose column count equals the label count and a
rectangle gate whose dimension labels all resolve (and whose dimensions each
carry a bound, since `apply` raises otherwise), the mask returned by `apply`
holds at event `k` iff for every dimension the event value is `>= min` when
min is present and `< max` when max is present, the per-dimension tests being
conjoined. -/
theorem rectangle_apply_membership (g : RectangleGate) (events : EventsMatrix)
    (pnn_labels : List String)
    (hcols : events.ncols = pnn_labels.length)
    (hres : ∀ d ∈ g.dimensions, (pyIndex pnn_labels d.label).isSome = true)
    (hbound : ∀ d ∈ g.dimensions, d.min ≠ none ∨ d.max ≠ none) :
    ∃ mask, g.apply events pnn_labels = .ok mask ∧
      ∀ (k : Nat) (row : List ℚ), events.rows[k]? = some row →
        (mask[k]? = some true ↔
          ∀ d ∈ g.dimensions, ∀ i, pyIndex pnn_labels d.label = some i →
            (∀ a, d.min = some a → a ≤ row.getD i 0) ∧
            (∀ b, d.max = some b → row.getD i 0 < b)) := by
  refine ⟨_, rectangle_apply_eq g events pnn_labels hcols hres hbound, ?_⟩
  intro k row hk
  rw [List.getElem?_map, hk, Option.map_some']
  simp only [Option.some.injEq]
  rw [List.all_eq_true]
  constructor
  · intro h d hd i hi
    have h2 := h d hd
    rw [rowTest_true_iff] at h2
    simpa [hi] using h2
  · intro h d hd
    obtain ⟨i, hi⟩ := Option.isSome_iff_exists.mp (hres d hd)
    rw [rowTest_true_iff]
    simpa [hi] using h d hd i hi

/-- Concrete instantiation of `rectangle_apply_membership`. -/
theorem rectangle_apply_membership_witness :
    (exEvents.ncols = exLabels.length ∧
     (∀ d ∈ exGate.dimensions, (pyIndex exLabels d.label).isSome = true) ∧
     (∀ d ∈ exGate.dimensions, d.min ≠ none ∨ d.max ≠ none)) ∧
    (∃ mask, exGate.apply exEvents exLabels = .ok mask ∧
      ∀ (k : Nat) (row : List ℚ), exEvents.rows[k]? = some row →
        (mask[k]? = some true ↔
          ∀ d ∈ exGate.dimensions, ∀ i, pyIndex exLabels d.label = some i →
            (∀ a, d.min = some a → a ≤ row.getD i 0) ∧
            (∀ b, d.max = some b → row.getD i 0 < b))) :=
  ⟨⟨by decide, by decide, by decide⟩,
    rectangle_apply_membership exGate exEvents exLabels
      (by decide) (by decide) (by decide)⟩

/-- C10: under the same success conditions, `apply` returns a boolean mask
whose length equals the number of event rows, and a gate with an empty
dimension list yields the all-`true` mask of that length. -/
theorem rectangle_apply_mask_length (g : RectangleGate) (events : EventsMatrix)
    (pnn_labels : List String)
    (hcols : events.ncols = pnn_labels.length)
    (hres : ∀ d ∈ g.dimensions, (pyIndex pnn_labels d.label).isSome = true)
    (hbound : ∀ d ∈ g.dimensions, d.min ≠ none ∨ d.max ≠ none) :
    ∃ mask, g.apply events pnn_labels = .ok mask ∧
      mask.length = events.rows.length ∧
      (g.dimensions = [] → mask = List.replicate events.rows.length true) := by
  refine ⟨_, rectangle_apply_eq g events pnn_labels hcols hres hbound,
    by simp, ?_⟩
  intro hnil
  rw [hnil]
  simp only [List.all_nil]
  exact map_const_true events.rows

/-- Concrete instantiation of `rectangle_apply_mask_length`. -/
theorem rectangle_apply_mask_length_witness :
    (exEvents.ncols = exLabels.length ∧
     (∀ d ∈ exGate.dimensions, (pyIndex exLabels d.label).isSome = true) ∧
     (∀ d ∈ exGate.dimensions, d.min ≠ none ∨ d.max ≠ none)) ∧
    (∃ mask, exGate.apply exEvents exLabels = .ok mask ∧
      mask.length = exEvents.rows.length ∧
      (exGate.dimensions = [] → mask = List.replicate exEvents.rows.length true)) :=
  ⟨⟨by decide, by decide, by decide⟩,
    rectangle_apply_mask_length exGate exEvents exLabels
      (by decide) (by decide) (by decide)⟩

/-- Association-list lookup, embedding a Python `dict` keyed by gate id in
insertion order (`key in dict` / `dict[key]`). -/
def lookupKey {β : Type} : List (String × β) → String → Option β
  | [], _ => none
  | (k, v) :: rest, key => if k = key then some v else lookupKey rest key

/-- Embedding of `GatingStrategy` (gate.py): `self.gates`, the dict from gate
id to gate object, in insertion order. -/
structure GatingStrategy where
  gates : List (String × RectangleGate)
deriving DecidableEq, Repr

/-- Embedding of the gate-registration loop of `GatingStrategy.__init__`
(gate.py lines 188-200): each parsed gate is inserted into `self.gates` under
its bare `g.id`, raising `ValueError` when the bare id is already a key. -/
def registerGates : List RectangleGate → List (String × RectangleGate) →
    Except PyErr (List (String × RectangleGate))
  | [], acc => .ok acc
  | g :: gs, acc =>
    if (lookupKey acc g.id).isSome then
      .error (.valueError ("Gate " ++ g.id ++
        " already exists. Duplicate gate IDs are not allowed."))
    else
      registerGates gs (acc ++ [(g.id, g)])

/-- Strategy construction from the parsed gate list: the XML parsing itself is
external; the duplicate check and dict build are the lines embedded here. -/
def buildStrategy (gs : List RectangleGate) : Except PyErr GatingStrategy :=
  (registerGates gs []).map GatingStrategy.mk

/-- Embedding of `GatingStrategy.gate_sample` (gate.py lines 202-226).
With `gate_id = None` the source sets `gates = self.gates` (the dict itself)
and then runs `for gate in gates`, which iterates the dict's KEYS — strings —
so the first loop iteration raises `AttributeError` on `gate.apply` whenever
the strategy has any gate (and even apart from that, the loop body stores
every result under the single key `results[gate_id]`, i.e. `None`).  With a
concrete `gate_id` the single gate is applied and stored under that id. -/
def GatingStrategy.gate_sample (gs : GatingStrategy) (events : EventsMatrix)
    (pnn_labels : List String) (gate_id : Option String) :
    Except PyErr (List (Option String × List Bool)) :=
  match gate_id with
  | none =>
    if gs.gates.isEmpty then .ok []
    else .error (.attributeError "'str' object has no attribute 'apply'")
  | some gid =>
    match lookupKey gs.gates gid with
    | none => .error (.keyError gid)
    | some gate => (gate.apply events pnn_labels).map (fun mask => [(some gid, mask)])

/-- Second example gate: same bare id as `exGate2Root` but a different parent. -/
def exGate2Root : RectangleGate := ⟨"G", none, [⟨"FSC-A", some 0, none⟩]⟩

/-- Gate sharing the bare id `G` with `exGate2Root` under a different parent. -/
def exGate2Child : RectangleGate := ⟨"G", some "P", [⟨"SSC-A", none, some 10⟩]⟩

/-- C2 (code bug): a strategy holding two gates, evaluated with
`gate_id = None`, does not return one membership result per gate — the loop
iterates the dict's keys and raises `AttributeError` on the first iteration,
contradicting the method's own docstring. -/
theorem gate_sample_none_attribute_error :
    (buildStrategy [exGate2Root, ⟨"H", none, [⟨"SSC-A", some 0, none⟩]⟩] =
      .ok ⟨[("G", exGate2Root), ("H", ⟨"H", none, [⟨"SSC-A", some 0, none⟩]⟩)]⟩) ∧
    (GatingStrategy.gate_sample
      ⟨[("G", exGate2Root), ("H", ⟨"H", none, [⟨"SSC-A", some 0, none⟩]⟩)]⟩
      exEvents exLabels none =
      .error (.attributeError "'str' object has no attribute 'apply'")) := by
  constructor <;> rfl

/-- C3 counterexample: two gate definitions sharing the bare id `G` under
different parents are rejected by strategy construction, although the claim
says such a construction succeeds. -/
theorem duplicate_bare_id_different_parents_rejected :
    exGate2Root.parent ≠ exGate2Child.parent ∧
    (buildStrategy [exGate2Root, exGate2Child]).isOk = false := by
  exact ⟨by decide, rfl⟩

lemma option_or_eq_none {α : Type} (a b : Option α) :
    a.or b = none ↔ a = none ∧ b = none := by
  cases a <;> cases b <;> simp [Option.or]

lemma lookupKey_append {β : Type} (l1 l2 : List (String × β)) (key : String) :
    lookupKey (l1 ++ l2) key = (lookupKey l1 key).or (lookupKey l2 key) := by
  induction l1 with
  | nil => simp [lookupKey, Option.or]
  | cons p rest ih =>
    obtain ⟨k, v⟩ := p
    by_cases h : k = key <;> simp [lookupKey, h, ih, Option.or]

lemma registerGates_ok_iff (gs : List RectangleGate)
    (acc : List (String × RectangleGate)) :
    (registerGates gs acc).isOk = true ↔
      (gs.map (fun g => g.id)).Nodup ∧
      ∀ g ∈ gs, lookupKey acc g.id = none := by
  induction gs generalizing acc with
  | nil => simp [registerGates, Except.isOk, Except.toBool]
  | cons g gs ih =>
    by_cases hdup : (lookupKey acc g.id).isSome = true
    · simp only [registerGates, if_pos hdup]
      constructor
      · intro h; cases h
      · rintro ⟨-, h2⟩
        rw [h2 g (by simp)] at hdup
        cases hdup
    · simp only [registerGates, if_neg hdup]
      rw [ih]
      have hacc : lookupKey acc g.id = none := by
        cases h : lookupKey acc g.id with
        | none => rfl
        | some v => rw [h] at hdup; simp at hdup
      constructor
      · rintro ⟨h1, h2⟩
        refine ⟨?_, ?_⟩
        · rw [List.map_cons, List.nodup_cons]
          refine ⟨?_, h1⟩
          intro hmem
          obtain ⟨g', hg', hid⟩ := List.mem_map.mp hmem
          have h3 := h2 g' hg'
          rw [lookupKey_append, hid, option_or_eq_none] at h3
          simp [lookupKey] at h3
        · intro x hx
          rw [List.mem_cons] at hx
          rcases hx with rfl | hx
          · exact hacc
          · have h3 := h2 x hx
            rw [lookupKey_append, option_or_eq_none] at h3
            exact h3.1
      · rintro ⟨h1, h2⟩
        rw [List.map_cons, List.nodup_cons] at h1
        refine ⟨h1.2, ?_⟩
        intro x hx
        have hxid : x.id ≠ g.id := by
          intro heq
          exact h1.1 (List.mem_map.mpr ⟨x, hx, heq⟩)
        have hgx : ¬g.id = x.id := fun h => hxid h.symm
        rw [lookupKey_append, h2 x (by simp [hx])]
        simp [lookupKey, Option.or, hgx]

/-- C3 amended: strategy construction succeeds iff the bare gate ids are
pairwise distinct — the bare id, not the gate path, is the unique key. -/
theorem build_ok_iff_bare_ids_nodup (gs : List RectangleGate) :
    (buildStrategy gs).isOk = true ↔ (gs.map (fun g => g.id)).Nodup := by
  rw [buildStrategy]
  have : ((registerGates gs []).map GatingStrategy.mk).isOk
      = (registerGates gs []).isOk := by
    cases registerGates gs [] <;> rfl
  rw [this, registerGates_ok_iff]
  simp [lookupKey]

/-- Rectangle gate whose single dimension carries neither bound. -/
def exGateNoBounds : RectangleGate := ⟨"N", none, [⟨"X", none, none⟩]⟩

/-- C9 counterexample: a strategy containing a rectangle gate with a
dimension lacking both bounds is constructed successfully — the missing-bound
error is not raised at strategy-build time; it first appears when `apply`
evaluates the gate. -/
theorem boundless_dimension_build_succeeds :
    (buildStrategy [exGateNoBounds]).isOk = true ∧
    exGateNoBounds.apply ⟨[[1]], 1⟩ ["X"] =
      .error (.valueError "Gate N does not include a min or max value") := by
  exact ⟨rfl, rfl⟩

lemma collectDims_fails (gateId : String) (labels : List String)
    (ds : List Dimension) (hex : ∃ d ∈ ds, d.min = none ∧ d.max = none) :
    (collectDims gateId labels ds).isOk = false := by
  induction ds with
  | nil => simp at hex
  | cons d' ds ih =>
    by_cases hb : d'.min = none ∧ d'.max = none
    · simp [collectDims, if_pos hb, Except.isOk, Except.toBool]
    · simp only [collectDims, if_neg hb]
      obtain ⟨d, hd, hdb⟩ := hex
      rw [List.mem_cons] at hd
      rcases hd with rfl | hd
      · exact absurd hdb hb
      have hrec := ih ⟨d, hd, hdb⟩
      cases hpi : pyIndex labels d'.label with
      | none => rfl
      | some i =>
        cases hc : collectDims gateId labels ds with
        | ok l => rw [hc] at hrec; cases hrec
        | error e => rfl

/-- C9 amended: a rectangle-gate dimension lacking both bounds does not make
strategy construction fail; the `ValueError` is first raised during
evaluation — `apply` never returns a mask for such a gate. -/
theorem boundless_dimension_eval_time_error (g : RectangleGate)
    (events : EventsMatrix) (pnn_labels : List String) (d : Dimension)
    (hd : d ∈ g.dimensions) (hmin : d.min = none) (hmax : d.max = none) :
    (buildStrategy [g]).isOk = true ∧
    (g.apply events pnn_labels).isOk = false := by
  refine ⟨rfl, ?_⟩
  rw [RectangleGate.apply]
  by_cases hs : events.ncols ≠ pnn_labels.length
  · rw [if_pos hs]; rfl
  · rw [if_neg hs]
    have hfail := collectDims_fails g.id pnn_labels g.dimensions ⟨d, hd, hmin, hmax⟩
    cases hc : collectDims g.id pnn_labels g.dimensions with
    | ok l => rw [hc] at hfail; cases hfail
    | error e => rfl

/-- Concrete instantiation of `boundless_dimension_eval_time_error`. -/
theorem boundless_dimension_eval_time_error_witness :
    ((⟨"X", none, none⟩ : Dimension) ∈ exGateNoBounds.dimensions) ∧
    ((buildStrategy [exGateNoBounds]).isOk = true ∧
     (exGateNoBounds.apply exEvents exLabels).isOk = false) :=
  ⟨by decide,
    boundless_dimension_eval_time_error exGateNoBounds exEvents exLabels
      ⟨"X", none, none⟩ (by decide) rfl rfl⟩

section Orchestration

variable {GS S R : Type}

/-- Embedding of `_gate_sample` (session.py lines 31-35): unpack one work
unit and call the strategy's `gate_sample`.  The `gate_sample` implementation
itself lives in `_models/gating_strategy.py`, which is not among the source
files, so it stays a parameter `gsample` throughout this section; every
statement below holds for an arbitrary `gsample`. -/
def _gate_sample (gsample : GS → S → Bool → Except PyErr R)
    (data : GS × S × Bool) : Except PyErr R :=
  gsample data.1 data.2.1 data.2.2

/-- Embedding of the data-list comprehension of the multiprocessing branch
(session.py line 51): `[(gating_strategies[i], sample, verbose) for i, sample
in enumerate(samples)]`.  Indexing past the end of `gating_strategies` raises
`IndexError` while the list is being built, before any unit runs. -/
def buildDataFrom (gating_strategies : List GS) (verbose : Bool) :
    Nat → List S → Except PyErr (List (GS × S × Bool))
  | _, [] => .ok []
  | i, s :: rest =>
    match gating_strategies[i]? with
    | none => .error (.indexError "list index out of range")
    | some g =>
      (buildDataFrom gating_strategies verbose (i + 1) rest).map
        (fun tail => (g, s, verbose) :: tail)

/-- Model of `pool.map(_gate_sample, data)` (session.py line 52): the workers
are independent and the pool returns their results in the order of `data`;
an exception raised in any worker is re-raised by `pool.map`. -/
def poolMap (f : GS × S × Bool → Except PyErr R) :
    List (GS × S × Bool) → Except PyErr (List R)
  | [] => .ok []
  | d :: rest => do
    let r ← f d
    (poolMap f rest).map (fun tail => r :: tail)

/-- Embedding of the sequential fallback loop (session.py lines 57-60):
`for i, sample in enumerate(samples): gating_strategies[i].gate_sample(...)`,
appending each result in order; an exception aborts the loop. -/
def seqLoopFrom (gsample : GS → S → Bool → Except PyErr R)
    (gating_strategies : List GS) (verbose : Bool) :
    Nat → List S → Except PyErr (List R)
  | _, [] => .ok []
  | i, s :: rest =>
    match gating_strategies[i]? with
    | none => .error (.indexError "list index out of range")
    | some g => do
      let r ← gsample g s verbose
      (seqLoopFrom gsample gating_strategies verbose (i + 1) rest).map
        (fun tail => r :: tail)

/-- Worker-count policy of `_gate_samples` (session.py lines 45-48):
`sample_count` when it is below `cpu_count`, otherwise `cpu_count - 1`. -/
def procCount (sample_count cpu_count : Nat) : Nat :=
  if sample_count < cpu_count then sample_count else cpu_count - 1

/-- The guard choosing the multiprocessing branch (session.py line 44):
`multi_proc and sample_count > 1 and use_mp`. -/
def mpGuard (multi_proc : Bool) (sample_count : Nat) (use_mp : Bool) : Bool :=
  multi_proc && decide (1 < sample_count) && use_mp

/-- Embedding of `_gate_samples` (session.py lines 38-62).  The pool size
`proc_count` only scales the worker pool; it does not enter the value
returned by `pool.map`. -/
def _gate_samples (gsample : GS → S → Bool → Except PyErr R)
    (gating_strategies : List GS) (samples : List S) (verbose : Bool)
    (multi_proc use_mp : Bool) (cpu_count : Nat) : Except PyErr (List R) :=
  if mpGuard multi_proc samples.length use_mp then
    let _proc_count := procCount samples.length cpu_count
    do
      let data ← buildDataFrom gating_strategies verbose 0 samples
      poolMap (_gate_sample gsample) data
  else
    seqLoopFrom gsample gating_strategies verbose 0 samples

lemma buildDataFrom_ok (strats : List GS) (verbose : Bool) :
    ∀ (samples : List S) (i : Nat), i + samples.length ≤ strats.length →
      ∃ data, buildDataFrom strats verbose i samples = .ok data := by
  intro samples
  induction samples with
  | nil => intro i h; exact ⟨[], rfl⟩
  | cons s rest ih =>
    intro i h
    have hi : i < strats.length := by
      simp only [List.length_cons] at h; omega
    obtain ⟨g, hg⟩ : ∃ g, strats[i]? = some g :=
      ⟨strats[i], List.getElem?_eq_getElem hi⟩
    obtain ⟨data, hd⟩ := ih (i + 1) (by simp only [List.length_cons] at h; omega)
    exact ⟨(g, s, verbose) :: data, by simp [buildDataFrom, hg, hd, exceptMap_ok]⟩

lemma mpBody_eq_seqLoop (gsample : GS → S → Bool → Except PyErr R)
    (strats : List GS) (verbose : Bool) :
    ∀ (samples : List S) (i : Nat), i + samples.length ≤ strats.length →
      (buildDataFrom strats verbose i samples >>=
        poolMap (_gate_sample gsample)) =
      seqLoopFrom gsample strats verbose i samples := by
  intro samples
  induction samples with
  | nil => intro i h; rfl
  | cons s rest ih =>
    intro i h
    have hi : i < strats.length := by
      simp only [List.length_cons] at h; omega
    obtain ⟨g, hg⟩ : ∃ g, strats[i]? = some g :=
      ⟨strats[i], List.getElem?_eq_getElem hi⟩
    have hle : i + 1 + rest.length ≤ strats.length := by
      simp only [List.length_cons] at h; omega
    obtain ⟨data, hb⟩ := buildDataFrom_ok strats verbose rest (i + 1) hle
    have hrec2 : poolMap (_gate_sample gsample) data =
        seqLoopFrom gsample strats verbose (i + 1) rest := by
      have hrec := ih (i + 1) hle
      rw [hb] at hrec
      exact hrec
    simp only [buildDataFrom, seqLoopFrom, hg, hb]
    rw [← hrec2]
    rfl

/-- C4: for aligned strategy/sample lists, `_gate_samples` returns the same
value whichever branch the multiprocessing guard selects — the parallel
evaluator and the sequential fallback agree exactly, for every `gate_sample`
semantics, so per-gate masks and report numbers are identical. -/
theorem gate_samples_mp_eq_sequential (gsample : GS → S → Bool → Except PyErr R)
    (strats : List GS) (samples : List S) (verbose : Bool)
    (hlen : samples.length ≤ strats.length)
    (mp1 u1 mp2 u2 : Bool) (c1 c2 : Nat) :
    _gate_samples gsample strats samples verbose mp1 u1 c1 =
      _gate_samples gsample strats samples verbose mp2 u2 c2 := by
  have hbody := mpBody_eq_seqLoop gsample strats verbose samples 0 (by omega)
  unfold _gate_samples
  by_cases h1 : mpGuard mp1 samples.length u1 = true <;>
    by_cases h2 : mpGuard mp2 samples.length u2 = true <;>
      simp only [h1, h2, if_pos, if_neg, Bool.not_eq_true] <;>
        simp [hbody]

/-- Concrete instantiation of `gate_samples_mp_eq_sequential`. -/
theorem gate_samples_mp_eq_sequential_witness :
    ([1, 2].length ≤ [(), ()].length) ∧
    (_gate_samples (fun (_ : Unit) (n : Nat) (_ : Bool) => (.ok (n + 1) : Except PyErr Nat))
      [(), ()] [1, 2] false true true 4 =
      _gate_samples (fun (_ : Unit) (n : Nat) (_ : Bool) => (.ok (n + 1) : Except PyErr Nat))
        [(), ()] [1, 2] false false false 1) :=
  ⟨by decide,
    gate_samples_mp_eq_sequential _ [(), ()] [1, 2] false (by decide)
      true true false false 4 1⟩

/-- Evaluation unit that fails on sample `0` and succeeds on any other. -/
def exFailUnit : Unit → Nat → Bool → Except PyErr Nat :=
  fun _ n _ => if n = 0 then .error (.valueError "unit failed") else .ok (n + 100)

/-- C5 counterexample: in a batch of two units where the first fails and the
second succeeds on its own, both the multiprocessing branch and the
sequential fallback of `_gate_samples` return a bare exception — the second
unit's result is not delivered and no per-sample error list exists. -/
theorem gate_samples_failure_loses_other_results :
    (exFailUnit () 1 false = .ok 101) ∧
    (_gate_samples exFailUnit [(), ()] [0, 1] false true true 4 =
      .error (.valueError "unit failed")) ∧
    (_gate_samples exFailUnit [(), ()] [0, 1] false false false 4 =
      .error (.valueError "unit failed")) :=
  ⟨rfl, rfl, rfl⟩

lemma seqLoopFrom_ok_spec (gsample : GS → S → Bool → Except PyErr R)
    (strats : List GS) (verbose : Bool) :
    ∀ (samples : List S) (i : Nat) (rs : List R),
      seqLoopFrom gsample strats verbose i samples = .ok rs →
      rs.length = samples.length ∧
      ∀ (j : Nat) (g : GS) (s : S), samples[j]? = some s →
        strats[i + j]? = some g →
        ∃ r, gsample g s verbose = .ok r ∧ rs[j]? = some r := by
  intro samples
  induction samples with
  | nil =>
    intro i rs h
    simp only [seqLoopFrom] at h
    cases h
    exact ⟨rfl, fun j g s hs => by simp at hs⟩
  | cons s rest ih =>
    intro i rs h
    cases hg : strats[i]? with
    | none => simp only [seqLoopFrom, hg] at h; cases h
    | some g =>
      simp only [seqLoopFrom, hg] at h
      cases hr : gsample g s verbose with
      | error e => rw [hr] at h; cases h
      | ok r0 =>
        rw [hr] at h
        cases hs2 : seqLoopFrom gsample strats verbose (i + 1) rest with
        | error e =>
          rw [hs2] at h
          cases h
        | ok rs' =>
          rw [hs2] at h
          simp only [Except.bind, exceptMap_ok] at h
          injection h with h
          subst h
          obtain ⟨hlen, hall⟩ := ih (i + 1) rs' hs2
          refine ⟨by simp [hlen], ?_⟩
          intro j g' s' hs' hg'
          cases j with
          | zero =>
            simp only [List.getElem?_cons_zero, Option.some.injEq] at hs'
            rw [Nat.add_zero, hg] at hg'
            cases hs'
            cases hg'
            exact ⟨r0, hr, by simp⟩
          | succ j =>
            simp only [List.getElem?_cons_succ] at hs'
            have hidx : i + (j + 1) = i + 1 + j := by omega
            rw [hidx] at hg'
            obtain ⟨r, hru, hrj⟩ := hall j g' s' hs' hg'
            exact ⟨r, hru, by simpa using hrj⟩

/-- C5 amended: `_gate_samples` delivers a results list only when every unit
succeeds (and then it holds exactly each unit's result in sample order); a
failing unit's exception propagates for the whole batch, so the other units'
results are lost rather than delivered beside a per-sample error list. -/
theorem gate_samples_ok_implies_all_units_ok
    (gsample : GS → S → Bool → Except PyErr R)
    (strats : List GS) (samples : List S) (verbose : Bool)
    (mp u : Bool) (c : Nat) (rs : List R)
    (hlen : samples.length ≤ strats.length)
    (hok : _gate_samples gsample strats samples verbose mp u c = .ok rs) :
    rs.length = samples.length ∧
    ∀ (j : Nat) (g : GS) (s : S), samples[j]? = some s → strats[j]? = some g →
      ∃ r, gsample g s verbose = .ok r ∧ rs[j]? = some r := by
  have hseq : seqLoopFrom gsample strats verbose 0 samples = .ok rs := by
    have hbody := mpBody_eq_seqLoop gsample strats verbose samples 0 (by omega)
    unfold _gate_samples at hok
    by_cases hg : mpGuard mp samples.length u = true
    · rw [if_pos hg] at hok
      have hok2 : (buildDataFrom strats verbose 0 samples >>=
          poolMap (_gate_sample gsample)) = .ok rs := hok
      rw [hbody] at hok2
      exact hok2
    · rw [if_neg hg] at hok
      exact hok
  have hspec := seqLoopFrom_ok_spec gsample strats verbose samples 0 rs hseq
  simpa using hspec

/-- Concrete instantiation of `gate_samples_ok_implies_all_units_ok`. -/
theorem gate_samples_ok_implies_all_units_ok_witness :
    ([5, 6].length ≤ [(), ()].length) ∧
    (([105, 106] : List Nat).length = [5, 6].length ∧
     ∀ (j : Nat) (g : Unit) (s : Nat), ([5, 6] : List Nat)[j]? = some s →
       ([(), ()] : List Unit)[j]? = some g →
       ∃ r, exFailUnit g s false = .ok r ∧ ([105, 106] : List Nat)[j]? = some r) :=
  ⟨by decide,
    gate_samples_ok_implies_all_units_ok exFailUnit [(), ()] [5, 6] false
      true true 4 [105, 106] (by decide) rfl⟩

/-- C8: the worker count equals `min(sample_count, cpu_count - 1)` — never
more than the sample count, reserving one core — and the multiprocessing
branch is selected only when more than one sample is queued. -/
theorem proc_count_policy (sample_count cpu_count : Nat) (h : 1 ≤ cpu_count) :
    procCount sample_count cpu_count = min sample_count (cpu_count - 1) ∧
    procCount sample_count cpu_count ≤ sample_count ∧
    ∀ (m u : Bool), mpGuard m sample_count u = true → 1 < sample_count := by
  refine ⟨?_, ?_, ?_⟩
  · unfold procCount
    split <;> omega
  · unfold procCount
    split <;> omega
  · intro m u hmu
    unfold mpGuard at hmu
    rcases (Bool.and_eq_true _ _).mp hmu with ⟨h1, -⟩
    rcases (Bool.and_eq_true _ _).mp h1 with ⟨-, h2⟩
    exact of_decide_eq_true h2

/-- Concrete instantiation of `proc_count_policy`. -/
theorem proc_count_policy_witness :
    (1 ≤ 4) ∧
    (procCount 6 4 = min 6 (4 - 1) ∧ procCount 6 4 ≤ 6 ∧
     ∀ (m u : Bool), mpGuard m 6 u = true → 1 < 6) :=
  ⟨by decide, proc_count_policy 6 4 (by decide)⟩

end Orchestration

/-- Embedding of the inner loop of `GMLQuadrantGate.__init__`
(gml_gates.py lines 253-260): walk the divider's split points in
`sorted(...)` order, recording each value `<= location` as the running
`q_min`, and stop at the first value `> location`, which becomes `q_max`.
The accumulator is the running `q_min` (initially `None`). -/
def straddle (location : ℚ) : List ℚ → Option ℚ → Option ℚ × Option ℚ
  | [], q_min => (q_min, none)
  | v :: rest, q_min =>
    if location < v then (q_min, some v)
    else straddle location rest (some v)

/-- Derivation of one quadrant position's `(min, max)` range bounds from a
divider's split-point list and the declared location: the loop above, run on
`sorted(div.values)` with both bounds initially `None`. -/
def deriveQuadrantBounds (values : List ℚ) (location : ℚ) : Option ℚ × Option ℚ :=
  straddle location values.mergeSort none

lemma option_or_none {α : Type} (a : Option α) : a.or none = a := by
  cases a <;> rfl

lemma option_or_assoc {α : Type} (a b c : Option α) :
    (a.or b).or c = a.or (b.or c) := by
  cases a <;> rfl

lemma getLast?_cons_or {α : Type} (v : α) (xs : List α) :
    (v :: xs).getLast? = xs.getLast?.or (some v) := by
  induction xs generalizing v with
  | nil => rfl
  | cons y ys ih =>
    rw [List.getLast?_cons_cons, ih y, option_or_assoc]
    rfl

lemma getLast?_eq_none_iff {α : Type} (l : List α) :
    l.getLast? = none ↔ l = [] := by
  cases l with
  | nil => simp
  | cons v xs =>
    rw [getLast?_cons_or]
    constructor
    · intro h
      cases hx : xs.getLast? <;> rw [hx] at h <;> cases h
    · intro h; cases h

lemma sorted_getLast?_max : ∀ (l : List ℚ), l.Sorted (· ≤ ·) → ∀ (m : ℚ),
    l.getLast? = some m ↔ m ∈ l ∧ ∀ x ∈ l, x ≤ m := by
  intro l
  induction l with
  | nil => intro _ m; simp
  | cons v rest ih =>
    intro hs m
    rw [List.sorted_cons] at hs
    rw [getLast?_cons_or]
    cases hrest : rest.getLast? with
    | none =>
      have hnil : rest = [] := (getLast?_eq_none_iff rest).mp hrest
      subst hnil
      simp only [Option.or]
      constructor
      · intro h
        injection h with h
        subst h
        exact ⟨by simp, by simp⟩
      · rintro ⟨hm, hub⟩
        simp only [List.mem_singleton] at hm
        rw [hm]
    | some z =>
      obtain ⟨hzm, hzub⟩ := (ih hs.2 z).mp hrest
      simp only [Option.or]
      constructor
      · intro h
        injection h with h
        subst h
        refine ⟨by simp [hzm], ?_⟩
        intro x hx
        rw [List.mem_cons] at hx
        rcases hx with hx | hx
        · rw [hx]; exact hs.1 z hzm
        · exact hzub x hx
      · rintro ⟨hm, hub⟩
        rw [List.mem_cons] at hm
        have hzv : z = m := by
          rcases hm with hm | hm
          · rw [hm] at hub ⊢
            exact le_antisymm (hub z (by simp [hzm])) (hs.1 z hzm)
          · exact le_antisymm (hub z (by simp [hzm])) (hzub m hm)
        rw [hzv]

lemma sorted_head?_min (l : List ℚ) (hsl : l.Sorted (· ≤ ·)) (m : ℚ) :
    l.head? = some m ↔ m ∈ l ∧ ∀ x ∈ l, m ≤ x := by
  cases l with
  | nil => simp
  | cons v rest =>
    rw [List.sorted_cons] at hsl
    simp only [List.head?_cons, Option.some.injEq]
    constructor
    · intro h
      subst h
      refine ⟨by simp, ?_⟩
      intro x hx
      rw [List.mem_cons] at hx
      rcases hx with hx | hx
      · rw [hx]
      · exact hsl.1 x hx
    · rintro ⟨hm, hlb⟩
      rw [List.mem_cons] at hm
      rcases hm with hm | hm
      · rw [hm]
      · exact le_antisymm (hsl.1 m hm) (hlb v (by simp))

lemma straddle_sorted_spec (location : ℚ) :
    ∀ (l : List ℚ), l.Sorted (· ≤ ·) → ∀ (acc : Option ℚ),
      straddle location l acc =
        (((l.filter (fun v => decide (v ≤ location))).getLast?).or acc,
         (l.filter (fun v => decide (location < v))).head?) := by
  intro l
  induction l with
  | nil => intro _ acc; rfl
  | cons v rest ih =>
    intro hs acc
    rw [List.sorted_cons] at hs
    by_cases hv : location < v
    · have hvle : ¬(v ≤ location) := not_le.mpr hv
      have hfilter1 : (v :: rest).filter (fun x => decide (x ≤ location)) = [] := by
        rw [List.filter_eq_nil_iff]
        intro x hx
        rw [List.mem_cons] at hx
        rcases hx with rfl | hx
        · simpa using hvle
        · simpa using not_le.mpr (lt_of_lt_of_le hv (hs.1 x hx))
      have hfilter2 : (v :: rest).filter (fun x => decide (location < x)) =
          v :: rest.filter (fun x => decide (location < x)) := by
        rw [List.filter_cons_of_pos]
        simpa using hv
      simp only [straddle]
      rw [if_pos hv, hfilter1, hfilter2]
      simp [Option.or]
    · have hvle : v ≤ location := not_lt.mp hv
      simp only [straddle]
      rw [if_neg hv, ih hs.2 (some v)]
      have hfilter1 : (v :: rest).filter (fun x => decide (x ≤ location)) =
          v :: rest.filter (fun x => decide (x ≤ location)) := by
        rw [List.filter_cons_of_pos]
        simpa using hvle
      have hfilter2 : (v :: rest).filter (fun x => decide (location < x)) =
          rest.filter (fun x => decide (location < x)) := by
        rw [List.filter_cons_of_neg]
        simpa using hv
      rw [hfilter1, hfilter2, getLast?_cons_or, option_or_assoc]
      rfl

lemma deriveQuadrantBounds_spec (values : List ℚ) (location : ℚ) :
    (∀ m, (deriveQuadrantBounds values location).1 = some m ↔
       m ∈ values ∧ m ≤ location ∧ ∀ v ∈ values, v ≤ location → v ≤ m) ∧
    ((deriveQuadrantBounds values location).1 = none ↔
       ∀ v ∈ values, location < v) ∧
    (∀ m, (deriveQuadrantBounds values location).2 = some m ↔
       m ∈ values ∧ location < m ∧ ∀ v ∈ values, location < v → m ≤ v) ∧
    ((deriveQuadrantBounds values location).2 = none ↔
       ∀ v ∈ values, v ≤ location) := by
  have hsort : List.Sorted (· ≤ ·) values.mergeSort := List.sorted_mergeSort' values
  have hperm : List.Perm values.mergeSort values := List.mergeSort_perm values _
  have hmem : ∀ x : ℚ, x ∈ values.mergeSort ↔ x ∈ values :=
    fun x => hperm.mem_iff
  have hbody := straddle_sorted_spec location values.mergeSort hsort none
  have hfsort1 : ((values.mergeSort).filter
      (fun v => decide (v ≤ location))).Sorted (· ≤ ·) :=
    List.Pairwise.filter _ hsort
  have hfsort2 : ((values.mergeSort).filter
      (fun v => decide (location < v))).Sorted (· ≤ ·) :=
    List.Pairwise.filter _ hsort
  refine ⟨?_, ?_, ?_, ?_⟩
  · intro m
    rw [deriveQuadrantBounds, hbody]
    simp only [option_or_none]
    rw [sorted_getLast?_max _ hfsort1 m]
    constructor
    · rintro ⟨hm, hub⟩
      rw [List.mem_filter] at hm
      refine ⟨(hmem m).mp hm.1, by simpa using hm.2, ?_⟩
      intro v hv hvle
      exact hub v (List.mem_filter.mpr ⟨(hmem v).mpr hv, by simpa using hvle⟩)
    · rintro ⟨hm, hml, hub⟩
      refine ⟨List.mem_filter.mpr ⟨(hmem m).mpr hm, by simpa using hml⟩, ?_⟩
      intro x hx
      rw [List.mem_filter] at hx
      exact hub x ((hmem x).mp hx.1) (by simpa using hx.2)
  · rw [deriveQuadrantBounds, hbody]
    simp only [option_or_none]
    rw [getLast?_eq_none_iff, List.filter_eq_nil_iff]
    constructor
    · intro h v hv
      have := h v ((hmem v).mpr hv)
      simpa using this
    · intro h x hx
      simpa using not_le.mpr (h x ((hmem x).mp hx))
  · intro m
    rw [deriveQuadrantBounds, hbody]
    rw [sorted_head?_min _ hfsort2 m]
    constructor
    · rintro ⟨hm, hlb⟩
      rw [List.mem_filter] at hm
      refine ⟨(hmem m).mp hm.1, by simpa using hm.2, ?_⟩
      intro v hv hvgt
      exact hlb v (List.mem_filter.mpr ⟨(hmem v).mpr hv, by simpa using hvgt⟩)
    · rintro ⟨hm, hml, hlb⟩
      refine ⟨List.mem_filter.mpr ⟨(hmem m).mpr hm, by simpa using hml⟩, ?_⟩
      intro x hx
      rw [List.mem_filter] at hx
      exact hlb x ((hmem x).mp hx.1) (by simpa using hx.2)
  · rw [deriveQuadrantBounds, hbody]
    rw [List.head?_eq_none_iff, List.filter_eq_nil_iff]
    constructor
    · intro h v hv
      have := h v ((hmem v).mpr hv)
      simpa using this
    · intro h x hx
      simpa using not_lt.mpr (h x ((hmem x).mp hx))

/-- C6: the derived quadrant range bounds are the two split points straddling
the declared location — `min` is the greatest split point `<= location`
(`None` when there is none) and `max` is the least split point `> location`
(`None` when there is none) — and the derivation does not depend on the
iteration order of the split points, since the loop sorts them first. -/
theorem quadrant_divider_bounds_straddle (values : List ℚ) (location : ℚ) :
    (∀ m, (deriveQuadrantBounds values location).1 = some m ↔
       m ∈ values ∧ m ≤ location ∧ ∀ v ∈ values, v ≤ location → v ≤ m) ∧
    ((deriveQuadrantBounds values location).1 = none ↔
       ∀ v ∈ values, location < v) ∧
    (∀ m, (deriveQuadrantBounds values location).2 = some m ↔
       m ∈ values ∧ location < m ∧ ∀ v ∈ values, location < v → m ≤ v) ∧
    ((deriveQuadrantBounds values location).2 = none ↔
       ∀ v ∈ values, v ≤ location) ∧
    (∀ values', values.Perm values' →
       deriveQuadrantBounds values location =
         deriveQuadrantBounds values' location) := by
  obtain ⟨h1, h2, h3, h4⟩ := deriveQuadrantBounds_spec values location
  refine ⟨h1, h2, h3, h4, ?_⟩
  intro values' hp
  obtain ⟨g1, g2, g3, g4⟩ := deriveQuadrantBounds_spec values' location
  have hmem : ∀ x : ℚ, x ∈ values ↔ x ∈ values' := fun x => hp.mem_iff
  have hfst : (deriveQuadrantBounds values location).1 =
      (deriveQuadrantBounds values' location).1 := by
    cases hx : (deriveQuadrantBounds values location).1 with
    | none =>
      have hall := h2.mp hx
      exact ((g2.mpr (fun v hv => hall v ((hmem v).mpr hv))).symm)
    | some m =>
      obtain ⟨hm, hml, hub⟩ := (h1 m).mp hx
      exact ((g1 m).mpr ⟨(hmem m).mp hm, hml,
        fun v hv hvle => hub v ((hmem v).mpr hv) hvle⟩).symm
  have hsnd : (deriveQuadrantBounds values location).2 =
      (deriveQuadrantBounds values' location).2 := by
    cases hx : (deriveQuadrantBounds values location).2 with
    | none =>
      have hall := h4.mp hx
      exact ((g4.mpr (fun v hv => hall v ((hmem v).mpr hv))).symm)
    | some m =>
      obtain ⟨hm, hml, hlb⟩ := (h3 m).mp hx
      exact ((g3 m).mpr ⟨(hmem m).mp hm, hml,
        fun v hv hvgt => hlb v ((hmem v).mpr hv) hvgt⟩).symm
  exact Prod.ext hfst hsnd

section SessionModel

/-- Heap address of a strategy object.  Python object identity is modelled by
an address into an explicit store; `copy.deepcopy` allocates a fresh one. -/
abbrev Addr := Nat

/-- Value content of a gating strategy object: its gate list stands for all
of its mutable content (gates, transforms, matrices).  Strategy values hold
no heap references, matching the fully-independent copies `copy.deepcopy`
produces. -/
structure StrategyV where
  gates : List String
deriving DecidableEq, Repr

/-- One sample group of `Session._sample_group_lut`: the `template` strategy
and the per-sample strategies, all held by reference into the store. -/
structure SampleGroup where
  template : Addr
  samples : List (String × Addr)
deriving DecidableEq, Repr

/-- Session heap state: allocation counter, store of strategy objects, and
the group table. -/
structure SessionState where
  next : Addr
  store : List (Addr × StrategyV)
  groups : List (String × SampleGroup)
deriving DecidableEq, Repr

/-- Store lookup by address. -/
def lookupAddr : List (Addr × StrategyV) → Addr → Option StrategyV
  | [], _ => none
  | (k, v) :: rest, key => if k = key then some v else lookupAddr rest key

/-- Dereference a strategy object. -/
def readStore (st : SessionState) (a : Addr) : StrategyV :=
  (lookupAddr st.store a).getD ⟨[]⟩

/-- In-place mutation of the strategy object at address `a`. -/
def writeStore (st : SessionState) (a : Addr) (v : StrategyV) : SessionState :=
  { st with store := st.store.map (fun p => if p.1 = a then (a, v) else p) }

/-- Embedding of `Session.assign_sample` (session.py lines 200-213): look up
the group (`KeyError` when absent), do nothing when the sample is already
assigned, otherwise bind the sample id to `copy.deepcopy(template)` — a
fresh address holding the template's current value. -/
def assign_sample (st : SessionState) (sample_id group_name : String) :
    Except PyErr SessionState :=
  match lookupKey st.groups group_name with
  | none => .error (.keyError group_name)
  | some group =>
    if (lookupKey group.samples sample_id).isSome then .ok st
    else
      let tv := readStore st group.template
      let a := st.next
      .ok { next := a + 1,
            store := (a, tv) :: st.store,
            groups := st.groups.map (fun p =>
              if p.1 = group_name then
                (group_name, { group with samples := (sample_id, a) :: group.samples })
              else p) }

/-- The member loop of `Session.add_gate` (session.py lines 308-309): each
member strategy receives its own deep copy of the gate. -/
def addGateToMembers (gate : String) :
    List (String × Addr) → SessionState → SessionState
  | [], st => st
  | (_, a) :: rest, st =>
    addGateToMembers gate rest
      (writeStore st a ⟨(readStore st a).gates ++ [gate]⟩)

/-- Embedding of `Session.add_gate` (session.py lines 291-309): add a deep
copy of the gate to the group template, then a further deep copy to every
member sample's strategy. -/
def add_gate (st : SessionState) (gate : String) (group_name : String) :
    Except PyErr SessionState :=
  match lookupKey st.groups group_name with
  | none => .error (.keyError group_name)
  | some group =>
    let st1 := writeStore st group.template
      ⟨(readStore st group.template).gates ++ [gate]⟩
    .ok (addGateToMembers gate group.samples st1)

lemma write_entry (a : Addr) (v : StrategyV) (k : Addr) (w : StrategyV) :
    (fun p : Addr × StrategyV => if p.1 = a then (a, v) else p) (k, w) =
      if k = a then (a, v) else (k, w) := by
  simp

lemma lookupAddr_write_ne (store : List (Addr × StrategyV)) (a b : Addr)
    (v : StrategyV) (hne : b ≠ a) :
    lookupAddr (store.map (fun p => if p.1 = a then (a, v) else p)) b =
      lookupAddr store b := by
  induction store with
  | nil => rfl
  | cons p rest ih =>
    obtain ⟨k, w⟩ := p
    simp only [List.map_cons, write_entry]
    by_cases hk : k = a
    · rw [if_pos hk]
      simp only [lookupAddr]
      rw [if_neg (fun h => hne h.symm), if_neg (fun h : k = b => hne ((hk ▸ h : a = b)).symm)]
      exact ih
    · rw [if_neg hk]
      simp only [lookupAddr]
      by_cases hkb : k = b
      · rw [if_pos hkb, if_pos hkb]
      · rw [if_neg hkb, if_neg hkb]
        exact ih

lemma readStore_write_ne (st : SessionState) (a b : Addr) (v : StrategyV)
    (hne : b ≠ a) : readStore (writeStore st a v) b = readStore st b := by
  simp only [readStore, writeStore]
  rw [lookupAddr_write_ne st.store a b v hne]

lemma lookupAddr_write_self (store : List (Addr × StrategyV)) (a : Addr)
    (v : StrategyV) (hmem : (lookupAddr store a).isSome = true) :
    lookupAddr (store.map (fun p => if p.1 = a then (a, v) else p)) a =
      some v := by
  induction store with
  | nil => simp [lookupAddr] at hmem
  | cons p rest ih =>
    obtain ⟨k, w⟩ := p
    simp only [List.map_cons, write_entry]
    by_cases hk : k = a
    · rw [if_pos hk]
      simp [lookupAddr]
    · rw [if_neg hk]
      simp only [lookupAddr] at hmem ⊢
      rw [if_neg hk] at hmem ⊢
      exact ih hmem

lemma readStore_write_self (st : SessionState) (a : Addr) (v : StrategyV)
    (hmem : (lookupAddr st.store a).isSome = true) :
    readStore (writeStore st a v) a = v := by
  simp only [readStore, writeStore]
  rw [lookupAddr_write_self st.store a v hmem]
  rfl

lemma lookupAddr_write_isSome (store : List (Addr × StrategyV)) (a : Addr)
    (v : StrategyV) (b : Addr) :
    (lookupAddr (store.map (fun p => if p.1 = a then (a, v) else p)) b).isSome =
      (lookupAddr store b).isSome := by
  induction store with
  | nil => rfl
  | cons p rest ih =>
    obtain ⟨k, w⟩ := p
    simp only [List.map_cons, write_entry]
    by_cases hk : k = a
    · rw [if_pos hk]
      simp only [lookupAddr]
      by_cases hab : a = b
      · rw [if_pos hab, if_pos (hk.trans hab)]
        rfl
      · rw [if_neg hab, if_neg (fun h : k = b => hab (hk ▸ h))]
        exact ih
    · rw [if_neg hk]
      simp only [lookupAddr]
      by_cases hkb : k = b
      · rw [if_pos hkb, if_pos hkb]
      · rw [if_neg hkb, if_neg hkb]
        exact ih

lemma addGateToMembers_read_notmem (gate : String) :
    ∀ (members : List (String × Addr)) (st : SessionState) (b : Addr),
      b ∉ members.map Prod.snd →
      readStore (addGateToMembers gate members st) b = readStore st b := by
  intro members
  induction members with
  | nil => intro st b _; rfl
  | cons p rest ih =>
    intro st b hb
    obtain ⟨sid0, a0⟩ := p
    simp only [List.map_cons, List.mem_cons, not_or] at hb
    simp only [addGateToMembers]
    rw [ih _ b hb.2, readStore_write_ne st a0 b _ hb.1]

lemma addGateToMembers_isSome (gate : String) :
    ∀ (members : List (String × Addr)) (st : SessionState) (b : Addr),
      (lookupAddr (addGateToMembers gate members st).store b).isSome =
        (lookupAddr st.store b).isSome := by
  intro members
  induction members with
  | nil => intro st b; rfl
  | cons p rest ih =>
    intro st b
    obtain ⟨sid0, a0⟩ := p
    simp only [addGateToMembers]
    rw [ih]
    exact lookupAddr_write_isSome st.store a0 _ b

lemma addGateToMembers_read_mem (gate : String) :
    ∀ (members : List (String × Addr)) (st : SessionState),
      (members.map Prod.snd).Nodup →
      (∀ p ∈ members, (lookupAddr st.store p.2).isSome = true) →
      ∀ p ∈ members,
        readStore (addGateToMembers gate members st) p.2 =
          ⟨(readStore st p.2).gates ++ [gate]⟩ := by
  intro members
  induction members with
  | nil => intro st _ _ p hp; cases hp
  | cons q rest ih =>
    intro st hnodup hsome p hp
    obtain ⟨sid0, a0⟩ := q
    simp only [List.map_cons, List.nodup_cons] at hnodup
    rw [List.mem_cons] at hp
    simp only [addGateToMembers]
    rcases hp with hp | hp
    · subst hp
      rw [addGateToMembers_read_notmem gate rest _ _ hnodup.1]
      exact readStore_write_self st a0 _ (hsome (sid0, a0) (List.mem_cons_self _ _))
    · have ha0 : p.2 ≠ a0 := by
        intro h
        exact hnodup.1 (h ▸ List.mem_map.mpr ⟨p, hp, rfl⟩)
      have hsome2 : ∀ q ∈ rest,
          (lookupAddr (writeStore st a0
            ⟨(readStore st a0).gates ++ [gate]⟩).store q.2).isSome = true := by
        intro q hq
        simp only [writeStore]
        rw [lookupAddr_write_isSome]
        exact hsome q (List.mem_cons_of_mem _ hq)
      rw [ih _ hnodup.2 hsome2 p hp, readStore_write_ne st a0 p.2 _ ha0]

/-- C7: after `assign_sample`, the sample's strategy is a fresh deep copy of
the group template: it starts out holding the template's value, mutating it
(writing any new value through its address) never changes the template or
any other member's strategy, and `add_gate` appends an independent copy of
the gate to the template and to each member strategy. -/
theorem assign_sample_deepcopy_independence (st : SessionState)
    (sample_id group_name gate : String) (grp : SampleGroup)
    (hg : lookupKey st.groups group_name = some grp)
    (hfresh : lookupKey grp.samples sample_id = none)
    (htmem : (lookupAddr st.store grp.template).isSome = true)
    (htlt : grp.template < st.next)
    (hsmem : ∀ p ∈ grp.samples, (lookupAddr st.store p.2).isSome = true)
    (hslt : ∀ p ∈ grp.samples, p.2 < st.next)
    (hnodup : (grp.samples.map Prod.snd).Nodup)
    (htnot : grp.template ∉ grp.samples.map Prod.snd) :
    ∃ stA, assign_sample st sample_id group_name = .ok stA ∧
      readStore stA st.next = readStore st grp.template ∧
      (∀ v, readStore (writeStore stA st.next v) st.next = v) ∧
      (∀ v, readStore (writeStore stA st.next v) grp.template =
        readStore st grp.template) ∧
      (∀ v, ∀ p ∈ grp.samples,
        readStore (writeStore stA st.next v) p.2 = readStore st p.2) ∧
      ∃ stG, add_gate st gate group_name = .ok stG ∧
        readStore stG grp.template =
          ⟨(readStore st grp.template).gates ++ [gate]⟩ ∧
        ∀ p ∈ grp.samples,
          readStore stG p.2 = ⟨(readStore st p.2).gates ++ [gate]⟩ := by
  have hta : grp.template ≠ st.next := Nat.ne_of_lt htlt
  refine ⟨{ next := st.next + 1,
            store := (st.next, readStore st grp.template) :: st.store,
            groups := st.groups.map (fun p =>
              if p.1 = group_name then
                (group_name,
                 { grp with samples := (sample_id, st.next) :: grp.samples })
              else p) }, ?_, ?_, ?_, ?_, ?_, ?_⟩
  · simp only [assign_sample, hg]
    rw [if_neg (by rw [hfresh]; simp)]
  · simp [readStore, lookupAddr]
  · intro v
    exact readStore_write_self _ st.next v (by simp [lookupAddr])
  · intro v
    rw [readStore_write_ne _ st.next grp.template v hta]
    simp only [readStore, lookupAddr]
    rw [if_neg (fun h : st.next = grp.template => hta h.symm)]
  · intro v p hp
    have hpa : p.2 ≠ st.next := Nat.ne_of_lt (hslt p hp)
    rw [readStore_write_ne _ st.next p.2 v hpa]
    simp only [readStore, lookupAddr]
    rw [if_neg (fun h : st.next = p.2 => hpa h.symm)]
  · refine ⟨addGateToMembers gate grp.samples
      (writeStore st grp.template
        ⟨(readStore st grp.template).gates ++ [gate]⟩), ?_, ?_, ?_⟩
    · simp only [add_gate, hg]
    · rw [addGateToMembers_read_notmem gate grp.samples _ grp.template htnot]
      exact readStore_write_self st grp.template _ htmem
    · intro p hp
      have hsome2 : ∀ q ∈ grp.samples,
          (lookupAddr (writeStore st grp.template
            ⟨(readStore st grp.template).gates ++ [gate]⟩).store q.2).isSome
            = true := by
        intro q hq
        simp only [writeStore]
        rw [lookupAddr_write_isSome]
        exact hsmem q hq
      have hne : p.2 ≠ grp.template := by
        intro h
        exact htnot (h ▸ List.mem_map.mpr ⟨p, hp, rfl⟩)
      rw [addGateToMembers_read_mem gate grp.samples _ hnodup hsome2 p hp,
        readStore_write_ne st grp.template p.2 _ hne]

/-- Example session heap: one group with a template (address 0) and two
member samples (addresses 1 and 2). -/
def exSession : SessionState :=
  ⟨3, [(0, ⟨["root"]⟩), (1, ⟨["root"]⟩), (2, ⟨["root"]⟩)],
   [("default", ⟨0, [("s1", 1), ("s2", 2)]⟩)]⟩

/-- Concrete instantiation of `assign_sample_deepcopy_independence`. -/
theorem assign_sample_deepcopy_independence_witness :
    (lookupKey exSession.groups "default" = some ⟨0, [("s1", 1), ("s2", 2)]⟩ ∧
     lookupKey (SampleGroup.mk 0 [("s1", 1), ("s2", 2)]).samples "s3" = none) ∧
    (∃ stA, assign_sample exSession "s3" "default" = .ok stA ∧
      readStore stA exSession.next =
        readStore exSession (SampleGroup.mk 0 [("s1", 1), ("s2", 2)]).template ∧
      (∀ v, readStore (writeStore stA exSession.next v) exSession.next = v) ∧
      (∀ v, readStore (writeStore stA exSession.next v)
          (SampleGroup.mk 0 [("s1", 1), ("s2", 2)]).template =
        readStore exSession (SampleGroup.mk 0 [("s1", 1), ("s2", 2)]).template) ∧
      (∀ v, ∀ p ∈ (SampleGroup.mk 0 [("s1", 1), ("s2", 2)]).samples,
        readStore (writeStore stA exSession.next v) p.2 =
          readStore exSession p.2) ∧
      ∃ stG, add_gate exSession "gateA" "default" = .ok stG ∧
        readStore stG (SampleGroup.mk 0 [("s1", 1), ("s2", 2)]).template =
          ⟨(readStore exSession
              (SampleGroup.mk 0 [("s1", 1), ("s2", 2)]).template).gates
            ++ ["gateA"]⟩ ∧
        ∀ p ∈ (SampleGroup.mk 0 [("s1", 1), ("s2", 2)]).samples,
          readStore stG p.2 =
            ⟨(readStore exSession p.2).gates ++ ["gateA"]⟩) :=
  ⟨⟨rfl, rfl⟩,
    assign_sample_deepcopy_independence exSession "s3" "default" "gateA"
      ⟨0, [("s1", 1), ("s2", 2)]⟩ rfl rfl (by decide) (by decide)
      (by decide) (by decide) (by decide) (by decide)⟩

end SessionModel

end FlowKit
